import Mathlib

/-!
Verification of the reviewer-assignment core of policy-bot
(`reviewer/reviewer.go`): tree walking for pending leaf rules, candidate
pool resolution, eligibility filtering and random sampling.

The Go source is shallowly embedded: the injected `*rand.Rand` becomes an
abstract stream of naturals consumed one value per `Intn` call (each call
reduces the drawn value modulo its bound, so every realizable draw sequence
is representable); Go maps used as sets become insertion-ordered key lists;
the collaborator permission map becomes an association list; fallible calls
return `Except`; a Go `panic` becomes the `Failure.panicked` error case.
-/

namespace Common

/-- Evaluation status of a policy result node (`common.Status`): the Go
package is not under `src/`, statuses are taken from the spec's data model
(approved, pending, disapproved, skipped). -/
inductive Status where
  | approved
  | pending
  | disapproved
  | skipped
deriving DecidableEq, Repr

/-- Reviewer specification attached to a leaf rule
(`common.ReviewRequestRule` as used by `reviewer.go`): explicit users, team
references, organization references, the any-admin and
any-write-collaborator flags, and the required reviewer count. -/
structure ReviewRequestRule where
  Users : List String
  Teams : List String
  Organizations : List String
  Admins : Bool
  WriteCollaborators : Bool
  RequiredCount : Nat
deriving DecidableEq, Repr

/-- Node of the policy evaluation result tree (`common.Result` as used by
`reviewer.go`): status, optional error, ordered children, and the review
request rule (meaningful on leaves). -/
inductive Result where
  | mk (Status : Status) (Error : Option String) (Children : List Result)
      (ReviewRequestRule : ReviewRequestRule)

/-- Status field accessor. -/
def Result.Status : Result → Status
  | .mk s _ _ _ => s

/-- Error field accessor. -/
def Result.Error : Result → Option String
  | .mk _ e _ _ => e

/-- Children field accessor. -/
def Result.Children : Result → List Result
  | .mk _ _ c _ => c

/-- ReviewRequestRule field accessor. -/
def Result.ReviewRequestRule : Result → ReviewRequestRule
  | .mk _ _ _ r => r

/-- Modelled from the spec: the `common` package's permission level
constant for admin collaborators (the package is not under `src/`; only the
string's identity matters, never its spelling). -/
def GithubAdminPermission : String := "admin"

/-- Modelled from the spec: the `common` package's permission level
constant for write collaborators. -/
def GithubWritePermission : String := "write"

end Common

namespace Reviewer

open Common

/-- Abstract randomness source: the embedding of the injected `*rand.Rand`.
`stream i` is the value produced by the i-th draw; `Intn` reduces it modulo
the requested bound. -/
structure RandSrc where
  stream : Nat → Nat

/-- One `r.Intn(k)` call at draw position `pos`.  All call sites in the
source guard `k > 0` (Go panics on `Intn(0)`). -/
def Intn (r : RandSrc) (pos k : Nat) : Nat :=
  r.stream pos % k

/-- How a call of the embedded code ends abnormally: `err` is an error
value returned to the caller, `panicked` is a Go panic (including the
sampler's retry-budget panic and index-out-of-range). -/
inductive Failure where
  | err (msg : String)
  | panicked (msg : String)
deriving DecidableEq, Repr

mutual

/-- `findLeafChildren` (reviewer.go:30-44): collect childless nodes with
pending status and nil error, descending only into children whose own
status is pending, left to right. -/
def findLeafChildren : Result → List Result
  | .mk st err [] rule =>
      if st = Status.pending ∧ err = none then [Result.mk st err [] rule] else []
  | .mk _ _ (c :: cs) _ => walkChildren (c :: cs)

/-- The `for _, c := range result.Children` loop of `findLeafChildren`:
appends `findLeafChildren c` for children whose own status is pending and
skips the others. -/
def walkChildren : List Result → List Result
  | [] => []
  | c :: cs =>
      (if c.Status = Status.pending then findLeafChildren c else []) ++ walkChildren cs

end

/-- `shoveIntoMap` (reviewer.go:77-81).  The Go map used as a set becomes
an insertion-ordered duplicate-free key list: inserting a present key is a
no-op, a new key goes to the back. -/
def shoveIntoMap (m : List String) (u : List String) : List String :=
  u.foldl (fun acc x => if x ∈ acc then acc else acc ++ [x]) m

/-- Association-list reading of the Go map returned by
`ListRepositoryCollaborators`: value of the first binding of key `k`. -/
def permGet (m : List (String × String)) (k : String) : Option String :=
  (m.find? (fun p => p.1 = k)).map Prod.snd

/-- Modelled from the spec: the `pull.Context` interface consumed by the
core (spec section 6); the `pull` package is not under `src/`.  Author
identity and the three directory listings; listings are snapshots (the
spec: each run is a pure function of the directory snapshot visible at
call time). -/
structure PullContext where
  Author : String
  ListTeamMembers : String → String → Except String (List String)
  ListOrganizationMembers : String → Except String (List String)
  ListRepositoryCollaborators : Except String (List (String × String))

/-- `selectTeamMembers` (reviewer.go:83-91): pick one team uniformly at
random, split its `org/team` reference and list its members.  The outer
`Except Failure` is a Go panic (`teamInfo[1]` is out of range when the
reference has no slash); the inner `Except String` is the function's
ordinary `([]string, error)` pair, the error wrapped as in the source.
The returned `Nat` is the advanced draw position. -/
def selectTeamMembers (prctx : PullContext) (allTeams : List String) (r : RandSrc)
    (pos : Nat) : Except Failure (Except String (List String) × Nat) :=
  let randomTeam := allTeams.getD (Intn r pos allTeams.length) ""
  match randomTeam.splitOn "/" with
  | t0 :: t1 :: _ =>
      match prctx.ListTeamMembers t0 t1 with
      | .error e =>
          .ok (.error ("Unable to get member listing for team " ++ randomTeam ++ ": " ++ e), pos + 1)
      | .ok members => .ok (.ok members, pos + 1)
  | _ => .error (.panicked "runtime error: index out of range")

/-- The panic message of `selectRandomUsers` (reviewer.go:63):
`fmt.Sprintf("Unable to select random value for %d %d", n, len(users))`. -/
def selectPanicMsg (n m : Nat) : String :=
  "Unable to select random value for " ++ toString n ++ " " ++ toString m

/-- Inner retry loop of `selectRandomUsers` (reviewer.go:59-72): draw an
index until it is not yet selected.  Go counts attempts upward with `j`,
panicking when `j > n*5`; here the same loop counts the remaining allowed
attempts down from `n*5 + 1` (the panic fires exactly when the countdown
hits zero), which makes the recursion structural.  Returns the fresh index
and the advanced draw position. -/
def selectInner (n : Nat) (users : List String) (r : RandSrc) (selected : List Nat) :
    Nat → Nat → Except Failure (Nat × Nat)
  | _, 0 => .error (.panicked (selectPanicMsg n users.length))
  | pos, c + 1 =>
      let m := Intn r pos users.length
      if m ∈ selected then selectInner n users r selected (pos + 1) c
      else .ok (m, pos + 1)

/-- Outer loop of `selectRandomUsers` (reviewer.go:57-73): select `k` more
indices, each with a fresh attempt countdown of `n*5 + 1`, accumulating
the selected indices and the corresponding users in order. -/
def selectOuter (n : Nat) (users : List String) (r : RandSrc) :
    Nat → List Nat → List String → Nat → Except Failure (List String × Nat)
  | 0, _, selections, pos => .ok (selections, pos)
  | k + 1, selected, selections, pos =>
      match selectInner n users r selected pos (n * 5 + 1) with
      | .error f => .error f
      | .ok (m, pos') =>
          selectOuter n users r k (selected ++ [m]) (selections ++ [users.getD m ""]) pos'

/-- `selectRandomUsers` (reviewer.go:47-75): select `n` random values from
`users` without reuse.  `n == 0` yields the empty selection, `n >=
len(users)` yields the input list itself, otherwise the draw loop runs;
`Failure.panicked` is the retry-budget panic. -/
def selectRandomUsers (n : Nat) (users : List String) (r : RandSrc) (pos : Nat) :
    Except Failure (List String × Nat) :=
  if n = 0 then .ok ([], pos)
  else if n ≥ users.length then .ok (users, pos)
  else selectOuter n users r n [] [] pos

/-- Organization step of the `FindRandomRequesters` loop body
(reviewer.go:112-119): pick one organization uniformly at random and add
its members; a listing failure is logged and adds nothing (`orgMembers`
is nil, so the shove is a no-op), never failing the run. -/
def orgPhase (prctx : PullContext) (child : Result) (r : RandSrc)
    (allUsers : List String) (pos : Nat) : List String × Nat :=
  if child.ReviewRequestRule.Organizations.length > 0 then
    let randomOrg := child.ReviewRequestRule.Organizations.getD
      (Intn r pos child.ReviewRequestRule.Organizations.length) ""
    match prctx.ListOrganizationMembers randomOrg with
    | .error _ => (shoveIntoMap allUsers [], pos + 1)
    | .ok orgMembers => (shoveIntoMap allUsers orgMembers, pos + 1)
  else (allUsers, pos)

/-- Team and organization steps of the `FindRandomRequesters` loop body
(reviewer.go:100-119): seed the pool with the rule's users, then run the
team step (a listing failure is logged and adds nothing; a panic inside
`selectTeamMembers` propagates) and the organization step. -/
def poolPhase1 (prctx : PullContext) (child : Result) (r : RandSrc) (pos : Nat) :
    Except Failure (List String × Nat) :=
  let allUsers0 := shoveIntoMap [] child.ReviewRequestRule.Users
  if child.ReviewRequestRule.Teams.length > 0 then
    match selectTeamMembers prctx child.ReviewRequestRule.Teams r pos with
    | .error f => .error f
    | .ok (.error _, pos') => .ok (orgPhase prctx child r (shoveIntoMap allUsers0 []) pos')
    | .ok (.ok teamMembers, pos') =>
        .ok (orgPhase prctx child r (shoveIntoMap allUsers0 teamMembers) pos')
  else .ok (orgPhase prctx child r allUsers0 pos)

/-- Admins / write-collaborators expansions of the `FindRandomRequesters`
loop body, exactly as written in Go (reviewer.go:126-144): `for _, c :=
range allCollaboratorPermissions` ranges over the map's *values*, and each
value `c` is looked up again as a key (a missing key reads as the zero
value `""`). -/
def expandFlags (child : Result) (perms : List (String × String))
    (allUsers : List String) : List String :=
  let allUsers3 :=
    if child.ReviewRequestRule.Admins then
      let repoAdmins := (perms.map Prod.snd).filter
        (fun c => (permGet perms c).getD "" = GithubAdminPermission)
      shoveIntoMap allUsers repoAdmins
    else allUsers
  if child.ReviewRequestRule.WriteCollaborators then
    let repoCollaborators := (perms.map Prod.snd).filter
      (fun c => (permGet perms c).getD "" = GithubWritePermission)
    shoveIntoMap allUsers3 repoCollaborators
  else allUsers3

/-- Pool construction portion of the `FindRandomRequesters` loop body
(reviewer.go:100-144): users, team and organization steps, then the
collaborator permission map fetch — fatal on error, wrapped as in the
source — and the flag expansions.  Returns the pool's insertion-ordered
key list, the permission map and the advanced draw position. -/
def buildPool (prctx : PullContext) (child : Result) (r : RandSrc) (pos : Nat) :
    Except Failure (List String × List (String × String) × Nat) :=
  match poolPhase1 prctx child r pos with
  | .error f => .error f
  | .ok (allUsers2, pos2) =>
      match prctx.ListRepositoryCollaborators with
      | .error e => .error (.err ("Unable to list repository collaborators: " ++ e))
      | .ok allCollaboratorPermissions =>
          .ok (expandFlags child allCollaboratorPermissions allUsers2,
            allCollaboratorPermissions, pos2)

/-- Eligibility filter of `FindRandomRequesters` (reviewer.go:146-154):
`for u := range allUsers { if u != author && ok { append } }`.  Go
iterates the map in an order the runtime randomizes, so the enumeration
order of the key set is an explicit parameter `iter` applied to the
insertion-ordered key list. -/
def filterPool (iter : List String → List String) (author : String)
    (perms : List (String × String)) (pool : List String) : List String :=
  (iter pool).foldl
    (fun acc u => if u ≠ author ∧ (permGet perms u).isSome then acc ++ [u] else acc) []

/-- Loop body of `FindRandomRequesters` (reviewer.go:100-158) for one
pending leaf: build the pool, filter it, sample
`ReviewRequestRule.RequiredCount` users.  Returns the leaf's selection and
the advanced draw position. -/
def processLeaf (iter : List String → List String) (prctx : PullContext) (child : Result)
    (r : RandSrc) (pos : Nat) : Except Failure (List String × Nat) :=
  match buildPool prctx child r pos with
  | .error f => .error f
  | .ok (pool, perms, pos') =>
      let allUserList := filterPool iter prctx.Author perms pool
      selectRandomUsers child.ReviewRequestRule.RequiredCount allUserList r pos'

/-- The `for _, child := range pendingLeafNodes` loop of
`FindRandomRequesters` (reviewer.go:100-159): process the leaves in order,
concatenating selections; the first failure aborts with that failure. -/
def processLeaves (iter : List String → List String) (prctx : PullContext) (r : RandSrc) :
    List Result → Nat → Except Failure (List String × Nat)
  | [], pos => .ok ([], pos)
  | child :: rest, pos =>
      match processLeaf iter prctx child r pos with
      | .error f => .error f
      | .ok (sel, pos') =>
          match processLeaves iter prctx r rest pos' with
          | .error f => .error f
          | .ok (sels, pos'') => .ok (sel ++ sels, pos'')

/-- `FindRandomRequesters` (reviewer.go:93-162): walk the tree for pending
leaves and process each in traversal order.  `iter` is the runtime's map
iteration order for the candidate pool (see `filterPool`);
`Failure.err` is the function's error return, `Failure.panicked` a panic
escaping it. -/
def FindRandomRequesters (iter : List String → List String) (prctx : PullContext)
    (result : Result) (r : RandSrc) : Except Failure (List String) :=
  match processLeaves iter prctx r (findLeafChildren result) 0 with
  | .error f => .error f
  | .ok (requestedUsers, _) => .ok requestedUsers

/-! ### Specification-side definitions

Definitions below restate claims in propositional form or, for refinement
comparisons, follow a claim's words rather than the source; each doc
comment says which. -/

/-- Conclusion of the amended C1: what `selectRandomUsers n users r` run at
draw position `pos` produces in each of its three branches; in the sampling
branch it either panics or yields `n` distinct members of `users`. -/
def SamplerSpec (n : Nat) (users : List String) (pos : Nat)
    (res : Except Failure (List String × Nat)) : Prop :=
  (n = 0 → res = .ok ([], pos)) ∧
  (0 < n → users.length ≤ n → res = .ok (users, pos)) ∧
  (0 < n → n < users.length →
    (∃ msg, res = .error (.panicked msg)) ∨
    (∃ l p', res = .ok (l, p') ∧ l.length = n ∧ (∀ x ∈ l, x ∈ users) ∧ l.Nodup))

/-- Inner draw loop of the sampler as claim C3 words it: the attempt
countdown is *shared across the whole operation*, so a success returns the
remaining countdown for the next selection to continue from.  This
definition follows the claim's words, not the source; compare
`selectInner`, whose countdown is reset per selection. -/
def sharedInner (n : Nat) (users : List String) (r : RandSrc) (selected : List Nat) :
    Nat → Nat → Except Failure (Nat × Nat × Nat)
  | _, 0 => .error (.panicked (selectPanicMsg n users.length))
  | pos, c + 1 =>
      let m := Intn r pos users.length
      if m ∈ selected then sharedInner n users r selected (pos + 1) c
      else .ok (m, pos + 1, c + 1)

/-- Outer loop of the shared-budget sampler of claim C3: the remaining
countdown is threaded from one selection to the next instead of being
reset.  Follows the claim's words, not the source. -/
def sharedOuter (n : Nat) (users : List String) (r : RandSrc) :
    Nat → List Nat → List String → Nat → Nat → Except Failure (List String × Nat)
  | 0, _, selections, pos, _ => .ok (selections, pos)
  | k + 1, selected, selections, pos, c =>
      match sharedInner n users r selected pos c with
      | .error f => .error f
      | .ok (m, pos', c') =>
          sharedOuter n users r k (selected ++ [m]) (selections ++ [users.getD m ""]) pos' c'

/-- The sampler as claim C3 describes it: identical to `selectRandomUsers`
except that collisions are counted against a single budget of `5 * n`
attempts shared across the whole operation.  Follows the claim's words,
not the source. -/
def sharedBudgetSelect (n : Nat) (users : List String) (r : RandSrc) (pos : Nat) :
    Except Failure (List String × Nat) :=
  if n = 0 then .ok ([], pos)
  else if n ≥ users.length then .ok (users, pos)
  else sharedOuter n users r n [] [] pos (n * 5 + 1)

/-- Conclusion of the amended C3: in the sampling branch the sampler
either aborts with the retry panic or returns a complete selection of `n`
elements — never a partial one — and a successful run consumes at least
`n` and at most `n * (5*n + 1)` draws: each of the `n` selections has its
own budget of `5*n` retries (so a run may survive far more than `5*n`
collisions in total). -/
def PerElementBudget (n : Nat) (users : List String) (pos : Nat)
    (res : Except Failure (List String × Nat)) : Prop :=
  res = .error (.panicked (selectPanicMsg n users.length)) ∨
  ∃ l p', res = .ok (l, p') ∧ l.length = n ∧ pos + n ≤ p' ∧ p' ≤ pos + n * (n * 5 + 1)

/-- The tree walk as the amended C5 words it: a childless root is kept
exactly when it is pending and error-free; a node with children keeps,
from the children whose own status is pending (all others and their
subtrees are skipped), the concatenation of their walks in left-to-right
order.  The root's own status is checked only in the childless case.
Follows the amended claim's words (filter-then-collect), to be compared
with `findLeafChildren`. -/
def pendingLeavesSpec : Result → List Result
  | .mk st err [] rule =>
      if st = Status.pending ∧ err = none then [Result.mk st err [] rule] else []
  | .mk _ _ (c :: cs) _ =>
      ((c :: cs).filter (fun x => x.Status = Status.pending)).attach.foldr
        (fun x acc => pendingLeavesSpec x.1 ++ acc) []
termination_by t => sizeOf t
decreasing_by
  have h1 := List.sizeOf_lt_of_mem (List.mem_of_mem_filter x.2)
  simp only [Result.mk.sizeOf_spec]
  omega

/-- Conclusion of C2: every selected identity differs from the
pull-request author and occurs as a key of the collaborator permission
map the context returned. -/
def eligibleSelection (prctx : PullContext) (out : List String) : Prop :=
  ∀ u ∈ out, u ≠ prctx.Author ∧
    ∃ perms, prctx.ListRepositoryCollaborators = Except.ok perms ∧ (permGet perms u).isSome

/-- What the team step of `buildPool` contributes to the pool: the chosen
team's member listing when it succeeds, nothing when the rule names no
teams or the listing fails. -/
def teamStepMembers (prctx : PullContext) (child : Result) (r : RandSrc) (pos : Nat) :
    List String :=
  if child.ReviewRequestRule.Teams.length > 0 then
    match selectTeamMembers prctx child.ReviewRequestRule.Teams r pos with
    | .ok (.ok members, _) => members
    | _ => []
  else []

/-- Draw position after the team step of `buildPool`. -/
def teamStepPos (child : Result) (pos : Nat) : Nat :=
  if child.ReviewRequestRule.Teams.length > 0 then pos + 1 else pos

/-- What the organization step of `buildPool` contributes to the pool,
`pos` being the draw position after the team step. -/
def orgStepMembers (prctx : PullContext) (child : Result) (r : RandSrc) (pos : Nat) :
    List String :=
  if child.ReviewRequestRule.Organizations.length > 0 then
    match prctx.ListOrganizationMembers (child.ReviewRequestRule.Organizations.getD
        (Intn r pos child.ReviewRequestRule.Organizations.length) "") with
    | .ok members => members
    | .error _ => []
  else []

/-- What the admins expansion of `buildPool` contributes to the pool. -/
def adminStepMembers (child : Result) (perms : List (String × String)) : List String :=
  if child.ReviewRequestRule.Admins then
    (perms.map Prod.snd).filter
      (fun c => (permGet perms c).getD "" = GithubAdminPermission)
  else []

/-- What the write-collaborators expansion of `buildPool` contributes to
the pool. -/
def writeStepMembers (child : Result) (perms : List (String × String)) : List String :=
  if child.ReviewRequestRule.WriteCollaborators then
    (perms.map Prod.snd).filter
      (fun c => (permGet perms c).getD "" = GithubWritePermission)
  else []

/-- Conclusion of C8: the pool is the additive union of its five sources —
membership in the pool is membership in at least one source, so no source
replaces or drops another's members. -/
def PoolUnion (prctx : PullContext) (child : Result) (r : RandSrc) (pos : Nat)
    (perms : List (String × String)) (pool : List String) : Prop :=
  ∀ u, u ∈ pool ↔
    u ∈ child.ReviewRequestRule.Users ∨
    u ∈ teamStepMembers prctx child r pos ∨
    u ∈ orgStepMembers prctx child r (teamStepPos child pos) ∨
    u ∈ adminStepMembers child perms ∨
    u ∈ writeStepMembers child perms

/-- The context `prctx` with its team and organization membership listings
replaced by failing ones (C6). -/
def ctxResolutionFail (prctx : PullContext) (e e' : String) : PullContext :=
  { prctx with
    ListTeamMembers := fun _ _ => Except.error e
    ListOrganizationMembers := fun _ => Except.error e' }

/-- The context `prctx` with its team and organization membership listings
replaced by ones that succeed with no members (C6). -/
def ctxResolutionEmpty (prctx : PullContext) : PullContext :=
  { prctx with
    ListTeamMembers := fun _ _ => Except.ok []
    ListOrganizationMembers := fun _ => Except.ok [] }

/-! ### Concrete inputs used by witnesses and counterexamples -/

/-- Stream whose i-th draw is i. -/
def exStreamIdx : RandSrc := ⟨fun p => p⟩

/-- Stream drawing 0 forever. -/
def exStreamZero : RandSrc := ⟨fun _ => 0⟩

/-- Stream for the C3 counterexample: with four users and `n = 3`, the
first selection takes index 0 at once, then each of the other two burns
ten collisions before succeeding — twenty collisions in total, more than
the shared budget `5 * 3` of claim C3, but well within each selection's
own budget. -/
def exStreamC3 : RandSrc := ⟨fun p => if p = 11 then 1 else if p ≥ 22 then 2 else 0⟩

/-- An empty review-request rule. -/
def exRuleEmpty : ReviewRequestRule := ⟨[], [], [], false, false, 0⟩

/-- A pending, error-free leaf. -/
def exLeafPending : Result := .mk .pending none [] exRuleEmpty

/-- A non-pending root holding a pending leaf child (C5). -/
def exRootApproved : Result := .mk .approved none [exLeafPending] exRuleEmpty

/-- Rule naming three users, two reviewers required. -/
def exRuleUsers3 : ReviewRequestRule := ⟨["a", "b", "c"], [], [], false, false, 2⟩

/-- Pending leaf carrying `exRuleUsers3`. -/
def exLeafUsers3 : Result := .mk .pending none [] exRuleUsers3

/-- Context: author `d`, three collaborators `a`, `b`, `c`. -/
def exCtxAbc : PullContext :=
  ⟨"d", fun _ _ => .ok [], fun _ => .ok [],
    .ok [("a", "admin"), ("b", "write"), ("c", "read")]⟩

/-- Context for C4: author `z`, single collaborator `alice` with admin
permission. -/
def exCtxAdmin : PullContext :=
  ⟨"z", fun _ _ => .ok [], fun _ => .ok [], .ok [("alice", "admin")]⟩

/-- Rule for C4: any-admin flag only, one reviewer required. -/
def exRuleAdmins : ReviewRequestRule := ⟨[], [], [], true, false, 1⟩

/-- Pending leaf carrying `exRuleAdmins`. -/
def exLeafAdmins : Result := .mk .pending none [] exRuleAdmins

/-- Rule naming one user, one reviewer required. -/
def exRuleUserA : ReviewRequestRule := ⟨["a"], [], [], false, false, 1⟩

/-- Pending leaf carrying `exRuleUserA`. -/
def exLeafUserA : Result := .mk .pending none [] exRuleUserA

/-- Pending root whose two children are the users-only leaf and the
three-user leaf (C7: the first succeeds, the second exhausts its retry
budget under the all-zero stream). -/
def exTreeTwoLeaves : Result := .mk .pending none [exLeafUserA, exLeafUsers3] exRuleEmpty

/-- Context for C9: the collaborator listing fails. -/
def exCtxCollabErr : PullContext :=
  ⟨"d", fun _ _ => .ok [], fun _ => .ok [], .error "boom"⟩

/-- Rule naming three users, one reviewer required (C10). -/
def exRuleUsers3One : ReviewRequestRule := ⟨["a", "b", "c"], [], [], false, false, 1⟩

/-- Pending leaf carrying `exRuleUsers3One`. -/
def exLeafUsers3One : Result := .mk .pending none [] exRuleUsers3One

/-- A context pointwise equal to `exCtxAbc` but written differently
(C10 witness). -/
def exCtxAbc2 : PullContext :=
  ⟨"d", fun _ _ => .ok ([] ++ []), fun _ => .ok ([] ++ []),
    .ok ([("a", "admin")] ++ [("b", "write"), ("c", "read")])⟩

/-! ### Helper lemmas about the pool set -/

theorem shoveIntoMap_cons (m : List String) (a : String) (u : List String) :
    shoveIntoMap m (a :: u) = shoveIntoMap (if a ∈ m then m else m ++ [a]) u := rfl

theorem shoveIntoMap_nil (m : List String) : shoveIntoMap m [] = m := rfl

theorem mem_shoveIntoMap (u : List String) : ∀ (m : List String) (x : String),
    x ∈ shoveIntoMap m u ↔ x ∈ m ∨ x ∈ u := by
  induction u with
  | nil =>
    intro m x
    simp [shoveIntoMap]
  | cons a u ih =>
    intro m x
    rw [shoveIntoMap_cons, ih]
    by_cases ha : a ∈ m
    · rw [if_pos ha]
      simp only [List.mem_cons]
      constructor
      · tauto
      · rintro (h | h | h)
        · tauto
        · subst h
          tauto
        · tauto
    · rw [if_neg ha]
      simp only [List.mem_append, List.mem_singleton, List.mem_cons]
      tauto

/-! ### Helper lemmas about the sampler loops -/

theorem selectInner_ok (n : Nat) (users : List String) (r : RandSrc) (selected : List Nat) :
    ∀ (c pos m p' : Nat), selectInner n users r selected pos c = .ok (m, p') →
      (0 < users.length → m < users.length) ∧ m ∉ selected ∧ pos < p' ∧ p' ≤ pos + c := by
  intro c
  induction c with
  | zero =>
    intro pos m p' h
    simp [selectInner] at h
  | succ c ih =>
    intro pos m p' h
    simp only [selectInner] at h
    by_cases hm : Intn r pos users.length ∈ selected
    · rw [if_pos hm] at h
      obtain ⟨h1, h2, h3, h4⟩ := ih (pos + 1) m p' h
      exact ⟨h1, h2, by omega, by omega⟩
    · rw [if_neg hm] at h
      cases h
      refine ⟨?_, hm, by omega, by omega⟩
      intro hlen
      exact Nat.mod_lt _ hlen

theorem selectInner_error (n : Nat) (users : List String) (r : RandSrc) (selected : List Nat) :
    ∀ (c pos : Nat) (f : Failure), selectInner n users r selected pos c = .error f →
      f = .panicked (selectPanicMsg n users.length) := by
  intro c
  induction c with
  | zero =>
    intro pos f h
    simp only [selectInner] at h
    cases h
    rfl
  | succ c ih =>
    intro pos f h
    simp only [selectInner] at h
    by_cases hm : Intn r pos users.length ∈ selected
    · rw [if_pos hm] at h
      exact ih (pos + 1) f h
    · rw [if_neg hm] at h
      cases h

theorem selectOuter_ok (n : Nat) (users : List String) (r : RandSrc) (hlen : 0 < users.length) :
    ∀ (k : Nat) (selected : List Nat) (pos : Nat) (l : List String) (p' : Nat),
      (∀ i ∈ selected, i < users.length) → selected.Nodup →
      selectOuter n users r k selected (selected.map (fun i => users.getD i "")) pos = .ok (l, p') →
      ∃ sel2 : List Nat,
        l = sel2.map (fun i => users.getD i "") ∧
        (∀ i ∈ sel2, i < users.length) ∧ sel2.Nodup ∧
        sel2.length = selected.length + k ∧
        pos + k ≤ p' ∧ p' ≤ pos + k * (n * 5 + 1) := by
  intro k
  induction k with
  | zero =>
    intro selected pos l p' hbound hnd h
    simp only [selectOuter, Except.ok.injEq, Prod.mk.injEq] at h
    refine ⟨selected, h.1.symm, hbound, hnd, by simp, by omega, by omega⟩
  | succ k ih =>
    intro selected pos l p' hbound hnd h
    simp only [selectOuter] at h
    cases hin : selectInner n users r selected pos (n * 5 + 1) with
    | error f =>
      rw [hin] at h
      cases h
    | ok mp =>
      obtain ⟨m, pos1⟩ := mp
      rw [hin] at h
      obtain ⟨hmlt, hmnot, hpos1, hpos2⟩ := selectInner_ok n users r selected _ pos m pos1 hin
      have hcall : selectOuter n users r k (selected ++ [m])
          ((selected ++ [m]).map (fun i => users.getD i "")) pos1 = .ok (l, p') := by
        simpa [List.map_append] using h
      have hb2 : ∀ i ∈ selected ++ [m], i < users.length := by
        intro i hi
        rcases List.mem_append.mp hi with h' | h'
        · exact hbound i h'
        · simp only [List.mem_singleton] at h'
          subst h'
          exact hmlt hlen
      have hnd2 : (selected ++ [m]).Nodup := by
        rw [List.nodup_append]
        refine ⟨hnd, List.nodup_singleton m, ?_⟩
        intro a ha hb
        simp only [List.mem_singleton] at hb
        subst hb
        exact hmnot ha
      obtain ⟨sel2, e1, e2, e3, e4, e5, e6⟩ := ih (selected ++ [m]) pos1 l p' hb2 hnd2 hcall
      have hmul : (k + 1) * (n * 5 + 1) = k * (n * 5 + 1) + (n * 5 + 1) := by ring
      refine ⟨sel2, e1, e2, e3, ?_, by omega, by omega⟩
      rw [e4]
      simp only [List.length_append, List.length_singleton]
      omega

theorem selectOuter_error (n : Nat) (users : List String) (r : RandSrc) :
    ∀ (k : Nat) (selected : List Nat) (selections : List String) (pos : Nat) (f : Failure),
      selectOuter n users r k selected selections pos = .error f →
      f = .panicked (selectPanicMsg n users.length) := by
  intro k
  induction k with
  | zero =>
    intro selected selections pos f h
    simp only [selectOuter] at h
    cases h
  | succ k ih =>
    intro selected selections pos f h
    simp only [selectOuter] at h
    cases hin : selectInner n users r selected pos (n * 5 + 1) with
    | error g =>
      rw [hin] at h
      cases h
      exact selectInner_error n users r selected _ pos f hin
    | ok mp =>
      rw [hin] at h
      exact ih _ _ _ f h

/-! ### Claim C1 -/

/-- C1, counterexample to the claim as stated: on a candidate list that
contains a duplicate, the `0 < n < m` branch can return the same string
twice, so the result is not "`n` distinct elements".  The input list
`["a", "a", "b"]` has size 3; with the identity stream the two draws pick
indices 0 and 1, both holding `"a"`. -/
theorem selectRandomUsers_dup_cex :
    selectRandomUsers 2 ["a", "a", "b"] exStreamIdx 0 = .ok (["a", "a"], 2) ∧
    ¬ (["a", "a"] : List String).Nodup := by
  exact ⟨rfl, by decide⟩

/-- C1 (amended): for a duplicate-free candidate list of size `m` and any
randomness stream, `selectRandomUsers` returns the empty sequence when
`n = 0`, exactly the input list in its given order when `n ≥ m`, and
otherwise either aborts with the retry panic or returns exactly `n`
distinct elements of the input list. -/
theorem selectRandomUsers_spec (n : Nat) (users : List String) (r : RandSrc) (pos : Nat)
    (h : users.Nodup) : SamplerSpec n users pos (selectRandomUsers n users r pos) := by
  refine ⟨?_, ?_, ?_⟩
  · intro h0
    simp [selectRandomUsers, h0]
  · intro h1 h2
    unfold selectRandomUsers
    rw [if_neg (by omega), if_pos (by omega)]
  · intro h1 h2
    unfold selectRandomUsers
    rw [if_neg (by omega), if_neg (by omega)]
    cases hres : selectOuter n users r n [] [] pos with
    | error f =>
      left
      have hf := selectOuter_error n users r n [] [] pos f hres
      exact ⟨selectPanicMsg n users.length, by rw [hf]⟩
    | ok lp =>
      right
      obtain ⟨l, p'⟩ := lp
      have hlen : 0 < users.length := by omega
      obtain ⟨sel2, e1, e2, e3, e4, e5, e6⟩ :=
        selectOuter_ok n users r hlen n [] pos l p' (by simp) List.nodup_nil hres
      refine ⟨l, p', rfl, ?_, ?_, ?_⟩
      · rw [e1, List.length_map, e4]
        simp
      · intro x hx
        rw [e1] at hx
        obtain ⟨i, hi, hfx⟩ := List.mem_map.mp hx
        have hilt := e2 i hi
        rw [← hfx, List.getD_eq_getElem users "" hilt]
        exact List.getElem_mem hilt
      · rw [e1]
        refine List.Nodup.map_on ?_ e3
        intro i hi j hj hEq
        have hilt := e2 i hi
        have hjlt := e2 j hj
        rw [List.getD_eq_getElem users "" hilt, List.getD_eq_getElem users "" hjlt] at hEq
        exact (List.Nodup.getElem_inj_iff h).mp hEq

/-- C1 witness: the amended claim applied to the duplicate-free list
`["a", "b", "c"]` with the identity stream. -/
theorem selectRandomUsers_spec_witness :
    SamplerSpec 2 ["a", "b", "c"] 0 (selectRandomUsers 2 ["a", "b", "c"] exStreamIdx 0) :=
  selectRandomUsers_spec 2 ["a", "b", "c"] exStreamIdx 0 (by decide)

/-! ### Claim C3 -/

/-- C3, counterexample to the claim as stated: a run of twenty collisions
in total — more than the claimed whole-operation budget of `5 * n = 15` —
on which the source's sampler still succeeds and returns a full result,
while the sampler the claim describes (single budget shared across the
operation, `sharedBudgetSelect`) aborts.  The budget in the code is
therefore per selected element, not shared. -/
theorem selectRandomUsers_sharedBudget_cex :
    selectRandomUsers 3 ["a", "b", "c", "d"] exStreamC3 0 = .ok (["a", "b", "c"], 23) ∧
    sharedBudgetSelect 3 ["a", "b", "c", "d"] exStreamC3 0 =
      .error (.panicked (selectPanicMsg 3 4)) := by
  exact ⟨rfl, rfl⟩

/-- C3 (amended): in the `0 < n < m` branch each of the `n` selections has
its own retry budget of `5 * n` attempts; the sampler either aborts with
the retry panic or returns a complete selection of `n` elements — never a
partial result — and a successful run consumes between `n` and
`n * (5*n + 1)` draws. -/
theorem selectRandomUsers_budget (n : Nat) (users : List String) (r : RandSrc) (pos : Nat)
    (h1 : 0 < n) (h2 : n < users.length) :
    PerElementBudget n users pos (selectRandomUsers n users r pos) := by
  unfold selectRandomUsers
  rw [if_neg (by omega), if_neg (by omega)]
  cases hres : selectOuter n users r n [] [] pos with
  | error f =>
    left
    rw [selectOuter_error n users r n [] [] pos f hres]
  | ok lp =>
    right
    obtain ⟨l, p'⟩ := lp
    obtain ⟨sel2, e1, e2, e3, e4, e5, e6⟩ :=
      selectOuter_ok n users r (by omega) n [] pos l p' (by simp) List.nodup_nil hres
    refine ⟨l, p', rfl, ?_, by omega, by omega⟩
    rw [e1, List.length_map, e4]
    simp

/-- C3 witness: the amended claim applied at `n = 2` over three users with
the identity stream. -/
theorem selectRandomUsers_budget_witness :
    PerElementBudget 2 ["a", "b", "c"] 0 (selectRandomUsers 2 ["a", "b", "c"] exStreamIdx 0) :=
  selectRandomUsers_budget 2 ["a", "b", "c"] exStreamIdx 0 (by decide) (by decide)

/-! ### Claim C5 -/

/-- Every node the tree walk returns is childless, pending and error-free
(soundness half of C5). -/
theorem findLeafChildren_pending (t : Result) : ∀ l ∈ findLeafChildren t,
    l.Children = [] ∧ l.Status = Status.pending ∧ l.Error = none := by
  refine findLeafChildren.induct
    (motive_1 := fun t => ∀ l ∈ findLeafChildren t,
      l.Children = [] ∧ l.Status = Status.pending ∧ l.Error = none)
    (motive_2 := fun ls => ∀ l ∈ walkChildren ls,
      l.Children = [] ∧ l.Status = Status.pending ∧ l.Error = none)
    ?_ ?_ ?_ ?_ ?_ t
  · intro st err rule h l hl
    simp only [findLeafChildren, if_pos h, List.mem_singleton] at hl
    subst hl
    exact ⟨rfl, h.1, h.2⟩
  · intro st err rule h l hl
    simp [findLeafChildren, if_neg h] at hl
  · intro St Er c cs RRR ih l hl
    simp only [findLeafChildren] at hl
    exact ih l hl
  · intro l hl
    simp [walkChildren] at hl
  · intro c cs ih1 ih2 l hl
    simp only [walkChildren] at hl
    rcases List.mem_append.mp hl with h' | h'
    · by_cases hc : c.Status = Status.pending
      · rw [if_pos hc] at h'
        exact ih1 l h'
      · rw [if_neg hc] at h'
        simp at h'
    · exact ih2 l h'

/-- The tree walk agrees with the filter-then-collect reading of the
amended C5 (left-to-right order included). -/
theorem findLeafChildren_eq_spec (t : Result) : findLeafChildren t = pendingLeavesSpec t := by
  refine findLeafChildren.induct
    (motive_1 := fun t => findLeafChildren t = pendingLeavesSpec t)
    (motive_2 := fun ls => walkChildren ls =
      (ls.filter (fun x => x.Status = Status.pending)).foldr
        (fun x acc => pendingLeavesSpec x ++ acc) [])
    ?_ ?_ ?_ ?_ ?_ t
  · intro st err rule h
    simp [findLeafChildren, pendingLeavesSpec, h]
  · intro st err rule h
    simp only [findLeafChildren, pendingLeavesSpec, if_neg h]
  · intro St Er c cs RRR ih
    simp only [findLeafChildren]
    rw [ih]
    conv_rhs => rw [pendingLeavesSpec]
    exact (List.foldr_attach _ _ _).symm
  · simp [walkChildren]
  · intro c cs ih1 ih2
    simp only [walkChildren]
    by_cases hc : c.Status = Status.pending
    · rw [if_pos hc, ih1, ih2]
      have hfil : List.filter (fun x => decide (x.Status = Status.pending)) (c :: cs) =
          c :: List.filter (fun x => decide (x.Status = Status.pending)) cs := by
        simp [List.filter_cons, hc]
      rw [hfil, List.foldr_cons]
    · rw [if_neg hc, ih2]
      have hfil : List.filter (fun x => decide (x.Status = Status.pending)) (c :: cs) =
          List.filter (fun x => decide (x.Status = Status.pending)) cs := by
        simp [List.filter_cons, hc]
      rw [hfil, List.nil_append]

/-- C5, counterexample to the claim as stated: a pending, error-free leaf
below a non-pending root is returned even though it has a non-pending
ancestor — the walk checks each child's status but never the root's own
status when the root has children. -/
theorem findLeafChildren_nonpending_root_cex :
    findLeafChildren exRootApproved = [exLeafPending] ∧
    exLeafPending ∈ exRootApproved.Children ∧
    exRootApproved.Status ≠ Status.pending := by
  refine ⟨rfl, List.mem_singleton.mpr rfl, by decide⟩

/-- C5 (amended): `findLeafChildren` returns exactly the childless,
pending, error-free nodes reachable by descending only through children
whose own status is pending, in left-to-right order; the root's own status
is checked only when the root itself is childless, so a pending leaf under
a non-pending root is still returned. -/
theorem findLeafChildren_spec (t : Result) :
    (∀ l ∈ findLeafChildren t,
      l.Children = [] ∧ l.Status = Status.pending ∧ l.Error = none) ∧
    findLeafChildren t = pendingLeavesSpec t :=
  ⟨findLeafChildren_pending t, findLeafChildren_eq_spec t⟩

/-! ### Claim C2 -/

/-- A successful sampler run only returns elements of its input list. -/
theorem selectRandomUsers_ok_subset (n : Nat) (users : List String) (r : RandSrc) (pos : Nat)
    (l : List String) (p' : Nat) (h : selectRandomUsers n users r pos = .ok (l, p')) :
    ∀ x ∈ l, x ∈ users := by
  unfold selectRandomUsers at h
  by_cases h0 : n = 0
  · rw [if_pos h0] at h
    cases h
    intro x hx
    simp at hx
  · rw [if_neg h0] at h
    by_cases h1 : n ≥ users.length
    · rw [if_pos h1] at h
      cases h
      intro x hx
      exact hx
    · rw [if_neg h1] at h
      have hlen : 0 < users.length := by omega
      obtain ⟨sel2, e1, e2, _, _, _, _⟩ :=
        selectOuter_ok n users r hlen n [] pos l p' (by simp) List.nodup_nil h
      intro x hx
      rw [e1] at hx
      obtain ⟨i, hi, hfx⟩ := List.mem_map.mp hx
      rw [← hfx, List.getD_eq_getElem users "" (e2 i hi)]
      exact List.getElem_mem _

/-- Elements accumulated by the eligibility-filter fold either were in the
accumulator already or pass the filter's test. -/
theorem foldl_filter_mem (author : String) (perms : List (String × String)) :
    ∀ (l acc : List String) (x : String),
      x ∈ l.foldl
        (fun acc u => if u ≠ author ∧ (permGet perms u).isSome then acc ++ [u] else acc) acc →
      x ∈ acc ∨ (x ≠ author ∧ (permGet perms x).isSome) := by
  intro l
  induction l with
  | nil =>
    intro acc x h
    simp only [List.foldl_nil] at h
    exact Or.inl h
  | cons a l ih =>
    intro acc x h
    simp only [List.foldl_cons] at h
    by_cases ha : a ≠ author ∧ (permGet perms a).isSome
    · rw [if_pos ha] at h
      rcases ih _ x h with h' | h'
      · rcases List.mem_append.mp h' with h'' | h''
        · exact Or.inl h''
        · simp only [List.mem_singleton] at h''
          subst h''
          exact Or.inr ha
      · exact Or.inr h'
    · rw [if_neg ha] at h
      exact ih _ x h

/-- Everything the eligibility filter keeps differs from the author and is
a key of the permission map. -/
theorem filterPool_mem (iter : List String → List String) (author : String)
    (perms : List (String × String)) (pool : List String) (x : String)
    (h : x ∈ filterPool iter author perms pool) :
    x ≠ author ∧ (permGet perms x).isSome := by
  unfold filterPool at h
  rcases foldl_filter_mem author perms (iter pool) [] x h with h' | h'
  · simp at h'
  · exact h'

/-- The permission map a successful `buildPool` hands on is exactly the
context's collaborator listing. -/
theorem buildPool_perms (prctx : PullContext) (child : Result) (r : RandSrc) (pos : Nat)
    (pool : List String) (perms : List (String × String)) (p' : Nat)
    (h : buildPool prctx child r pos = .ok (pool, perms, p')) :
    prctx.ListRepositoryCollaborators = .ok perms := by
  unfold buildPool at h
  cases h1 : poolPhase1 prctx child r pos with
  | error f =>
    rw [h1] at h
    cases h
  | ok up =>
    obtain ⟨u2, pos2⟩ := up
    rw [h1] at h
    cases hC : prctx.ListRepositoryCollaborators with
    | error e =>
      rw [hC] at h
      cases h
    | ok m =>
      rw [hC] at h
      simp only [Except.ok.injEq, Prod.mk.injEq] at h
      rw [h.2.1]

/-- Every identity a successful leaf run selects is eligible: not the
author and a key of the collaborator permission map. -/
theorem processLeaf_elig (iter : List String → List String) (prctx : PullContext)
    (child : Result) (r : RandSrc) (pos : Nat) (sel : List String) (p' : Nat)
    (h : processLeaf iter prctx child r pos = .ok (sel, p')) :
    eligibleSelection prctx sel := by
  unfold processLeaf at h
  cases hb : buildPool prctx child r pos with
  | error f =>
    rw [hb] at h
    cases h
  | ok t3 =>
    obtain ⟨pool, perms, pos1⟩ := t3
    rw [hb] at h
    have hperms := buildPool_perms prctx child r pos pool perms pos1 hb
    intro u hu
    have hsub := selectRandomUsers_ok_subset _ _ r pos1 sel p' h u hu
    have hf := filterPool_mem iter prctx.Author perms pool u hsub
    exact ⟨hf.1, perms, hperms, hf.2⟩

/-- Lift of `processLeaf_elig` over the leaf loop. -/
theorem processLeaves_elig (iter : List String → List String) (prctx : PullContext)
    (r : RandSrc) : ∀ (leaves : List Result) (pos : Nat) (out : List String) (p' : Nat),
    processLeaves iter prctx r leaves pos = .ok (out, p') → eligibleSelection prctx out := by
  intro leaves
  induction leaves with
  | nil =>
    intro pos out p' h
    simp only [processLeaves, Except.ok.injEq, Prod.mk.injEq] at h
    rw [← h.1]
    intro u hu
    simp at hu
  | cons c rest ih =>
    intro pos out p' h
    simp only [processLeaves] at h
    cases h1 : processLeaf iter prctx c r pos with
    | error f =>
      rw [h1] at h
      cases h
    | ok sp =>
      obtain ⟨sel, pos1⟩ := sp
      rw [h1] at h
      dsimp only at h
      cases h2 : processLeaves iter prctx r rest pos1 with
      | error f =>
        rw [h2] at h
        cases h
      | ok sp2 =>
        obtain ⟨sels, pos2⟩ := sp2
        rw [h2] at h
        simp only [Except.ok.injEq, Prod.mk.injEq] at h
        rw [← h.1]
        intro u hu
        rcases List.mem_append.mp hu with h' | h'
        · exact processLeaf_elig iter prctx c r pos sel pos1 h1 u h'
        · exact ih pos1 sels pos2 h2 u h'

/-- C2: every identity in the returned reviewer list — hence in every
leaf's final sampled selection — is a key of the collaborator permission
map and differs from the pull-request author, no matter what the rules
name explicitly: the eligibility filter runs before sampling on every
leaf. -/
theorem FindRandomRequesters_eligible (iter : List String → List String)
    (prctx : PullContext) (t : Result) (r : RandSrc) (out : List String)
    (h : FindRandomRequesters iter prctx t r = .ok out) : eligibleSelection prctx out := by
  unfold FindRandomRequesters at h
  cases h1 : processLeaves iter prctx r (findLeafChildren t) 0 with
  | error f =>
    rw [h1] at h
    cases h
  | ok sp =>
    obtain ⟨l2, p2⟩ := sp
    rw [h1] at h
    injection h with h'
    rw [← h']
    exact processLeaves_elig iter prctx r (findLeafChildren t) 0 l2 p2 h1

/-- C2 witness: a run over three collaborators with the author `d` and a
rule naming `a`, `b`, `c` returns `["a", "b"]`, which the claim's property
holds of. -/
theorem FindRandomRequesters_eligible_witness : eligibleSelection exCtxAbc ["a", "b"] :=
  FindRandomRequesters_eligible id exCtxAbc exLeafUsers3 exStreamIdx ["a", "b"] rfl

/-! ### Claim C4 -/

/-- C4, the code evaluated at the failing input: the permission map holds
the admin `alice`, the rule sets the any-admin flag and asks for one
reviewer, yet the run returns no one — the expansion loop `for _, c :=
range allCollaboratorPermissions` ranges over the map's values (permission
strings), looks each value up as a key and so adds nothing, where the
spec's intent is to add every identity at the admin level (the second
variant of the file does exactly that). -/
theorem FindRandomRequesters_admins_bug :
    FindRandomRequesters id exCtxAdmin exLeafAdmins exStreamZero = .ok [] ∧
    permGet [("alice", "admin")] "alice" = some GithubAdminPermission := by
  exact ⟨rfl, rfl⟩

/-! ### Claim C9 -/

/-- C9: the collaborator permission listing is consulted for every pending
leaf no matter what its rule contains, so when that listing fails, a tree
whose first pending leaf names no teams and no organizations — in
particular a rule with only explicit users and neither flag — makes the
whole run abort with the wrapped listing error. -/
theorem FindRandomRequesters_collab_fatal (iter : List String → List String)
    (prctx : PullContext) (t : Result) (r : RandSrc) (e : String) (c : Result)
    (rest : List Result)
    (hC : prctx.ListRepositoryCollaborators = .error e)
    (hL : findLeafChildren t = c :: rest)
    (hT : c.ReviewRequestRule.Teams = [])
    (hO : c.ReviewRequestRule.Organizations = []) :
    FindRandomRequesters iter prctx t r =
      .error (.err ("Unable to list repository collaborators: " ++ e)) := by
  unfold FindRandomRequesters
  rw [hL]
  simp only [processLeaves, processLeaf, buildPool, poolPhase1, orgPhase, hT, hO, hC,
    List.length_nil, gt_iff_lt, Nat.lt_irrefl, if_false]

/-- C9 witness: a users-only rule (no teams, no organizations, no flags)
still fails fatally when the collaborator listing errors. -/
theorem FindRandomRequesters_collab_fatal_witness :
    FindRandomRequesters id exCtxCollabErr exLeafUserA exStreamZero =
      .error (.err ("Unable to list repository collaborators: " ++ "boom")) :=
  FindRandomRequesters_collab_fatal id exCtxCollabErr exLeafUserA exStreamZero "boom"
    exLeafUserA [] rfl rfl rfl rfl

/-! ### Claim C6 -/

/-- The organization step behaves under a failing membership listing
exactly as under an empty one: the pool and position are untouched either
way and no failure escapes. -/
theorem orgPhase_resolution (prctx : PullContext) (e e' : String) (child : Result)
    (r : RandSrc) (u : List String) (pos : Nat) :
    orgPhase (ctxResolutionFail prctx e e') child r u pos =
    orgPhase (ctxResolutionEmpty prctx) child r u pos := by
  unfold orgPhase
  by_cases hO : child.ReviewRequestRule.Organizations.length > 0
  · rw [if_pos hO, if_pos hO]
    exact rfl
  · rw [if_neg hO, if_neg hO]

/-- The team and organization steps behave under failing membership
listings exactly as under empty ones. -/
theorem poolPhase1_resolution (prctx : PullContext) (e e' : String) (child : Result)
    (r : RandSrc) (pos : Nat) :
    poolPhase1 (ctxResolutionFail prctx e e') child r pos =
    poolPhase1 (ctxResolutionEmpty prctx) child r pos := by
  unfold poolPhase1 selectTeamMembers
  by_cases hT : child.ReviewRequestRule.Teams.length > 0
  · rw [if_pos hT, if_pos hT]
    dsimp only
    cases hsplit : (child.ReviewRequestRule.Teams.getD
        (Intn r pos child.ReviewRequestRule.Teams.length) "").splitOn "/" with
    | nil =>
      rfl
    | cons t0 ts =>
      cases ts with
      | nil =>
        rfl
      | cons t1 ts2 =>
        exact congrArg Except.ok (orgPhase_resolution prctx e e' child r
          (shoveIntoMap (shoveIntoMap [] child.ReviewRequestRule.Users) []) (pos + 1))
  · rw [if_neg hT, if_neg hT]
    rw [orgPhase_resolution]

/-- Pool construction behaves under failing team/organization listings
exactly as under empty ones. -/
theorem buildPool_resolution (prctx : PullContext) (e e' : String) (child : Result)
    (r : RandSrc) (pos : Nat) :
    buildPool (ctxResolutionFail prctx e e') child r pos =
    buildPool (ctxResolutionEmpty prctx) child r pos := by
  unfold buildPool
  rw [poolPhase1_resolution]
  cases poolPhase1 (ctxResolutionEmpty prctx) child r pos with
  | error f => rfl
  | ok up =>
    obtain ⟨u2, pos2⟩ := up
    dsimp only [ctxResolutionFail, ctxResolutionEmpty]

/-- One leaf's processing behaves under failing team/organization listings
exactly as under empty ones. -/
theorem processLeaf_resolution (iter : List String → List String) (prctx : PullContext)
    (e e' : String) (child : Result) (r : RandSrc) (pos : Nat) :
    processLeaf iter (ctxResolutionFail prctx e e') child r pos =
    processLeaf iter (ctxResolutionEmpty prctx) child r pos := by
  unfold processLeaf
  rw [buildPool_resolution]
  cases buildPool (ctxResolutionEmpty prctx) child r pos with
  | error f => rfl
  | ok up =>
    obtain ⟨pool, perms, pos'⟩ := up
    dsimp only [ctxResolutionFail, ctxResolutionEmpty]

/-- C6: a team-membership or organization-membership listing failure is
non-fatal and leaves the pool exactly as it was: the whole run returns
the very same value — same selections from the remaining pool, same error
behaviour — as the run in which those listings succeed with no members. -/
theorem FindRandomRequesters_resolution_nonfatal (iter : List String → List String)
    (prctx : PullContext) (e e' : String) (t : Result) (r : RandSrc) :
    FindRandomRequesters iter (ctxResolutionFail prctx e e') t r =
    FindRandomRequesters iter (ctxResolutionEmpty prctx) t r := by
  unfold FindRandomRequesters
  have hleaves : ∀ (leaves : List Result) (pos : Nat),
      processLeaves iter (ctxResolutionFail prctx e e') r leaves pos =
      processLeaves iter (ctxResolutionEmpty prctx) r leaves pos := by
    intro leaves
    induction leaves with
    | nil =>
      intro pos
      rfl
    | cons c rest ih =>
      intro pos
      simp only [processLeaves]
      rw [processLeaf_resolution]
      cases processLeaf iter (ctxResolutionEmpty prctx) c r pos with
      | error f => rfl
      | ok sp =>
        obtain ⟨sel, pos1⟩ := sp
        dsimp only
        rw [ih pos1]
  rw [hleaves]

/-! ### Claim C7 -/

/-- Splitting the leaf loop: once a leading segment succeeds, the loop
over the whole list either fails exactly as the remainder fails —
discarding the segment's accumulated selections — or returns the
concatenation. -/
theorem processLeaves_append (iter : List String → List String) (prctx : PullContext)
    (r : RandSrc) : ∀ (pre rest : List Result) (pos : Nat) (acc : List String) (p1 : Nat),
    processLeaves iter prctx r pre pos = .ok (acc, p1) →
    processLeaves iter prctx r (pre ++ rest) pos =
      match processLeaves iter prctx r rest p1 with
      | .error f => .error f
      | .ok (acc2, p2) => .ok (acc ++ acc2, p2) := by
  intro pre
  induction pre with
  | nil =>
    intro rest pos acc p1 h
    simp only [processLeaves, Except.ok.injEq, Prod.mk.injEq] at h
    rw [List.nil_append, ← h.1, ← h.2]
    cases processLeaves iter prctx r rest pos with
    | error f => rfl
    | ok sp =>
      obtain ⟨acc2, p2⟩ := sp
      simp
  | cons c pre ih =>
    intro rest pos acc p1 h
    simp only [processLeaves] at h
    simp only [List.cons_append, processLeaves]
    cases h1 : processLeaf iter prctx c r pos with
    | error f =>
      rw [h1] at h
      cases h
    | ok sp =>
      obtain ⟨sel, pos1⟩ := sp
      rw [h1] at h
      dsimp only at h ⊢
      cases h2 : processLeaves iter prctx r pre pos1 with
      | error f =>
        rw [h2] at h
        cases h
      | ok sp2 =>
        obtain ⟨sels, pos2⟩ := sp2
        rw [h2] at h
        simp only [Except.ok.injEq, Prod.mk.injEq] at h
        simp only [List.append_eq]
        rw [ih rest pos1 sels pos2 h2, ← h.1, ← h.2]
        cases processLeaves iter prctx r rest pos2 with
        | error f => rfl
        | ok sp3 =>
          obtain ⟨acc3, p3⟩ := sp3
          simp [List.append_assoc]

/-- C7: when some pending leaf's processing fails — here after the leaves
before it succeeded with selections `acc` — the whole call returns exactly
the failure: the earlier selections are discarded, never returned
alongside the error. -/
theorem FindRandomRequesters_allOrNothing (iter : List String → List String)
    (prctx : PullContext) (t : Result) (r : RandSrc) (pre : List Result) (bad : Result)
    (suf : List Result) (acc : List String) (p1 : Nat) (f : Failure)
    (hL : findLeafChildren t = pre ++ bad :: suf)
    (hpre : processLeaves iter prctx r pre 0 = .ok (acc, p1))
    (hbad : processLeaf iter prctx bad r p1 = .error f) :
    FindRandomRequesters iter prctx t r = .error f := by
  unfold FindRandomRequesters
  rw [hL, processLeaves_append iter prctx r pre (bad :: suf) 0 acc p1 hpre]
  simp only [processLeaves]
  rw [hbad]

/-- C7 witness: under the all-zero stream the first leaf (one explicit
user) succeeds with `["a"]`, the second leaf exhausts its retry budget,
and the whole call returns only the panic — the first leaf's selection is
discarded. -/
theorem FindRandomRequesters_allOrNothing_witness :
    FindRandomRequesters id exCtxAbc exTreeTwoLeaves exStreamZero =
      .error (.panicked (selectPanicMsg 2 3)) :=
  FindRandomRequesters_allOrNothing id exCtxAbc exTreeTwoLeaves exStreamZero
    [exLeafUserA] exLeafUsers3 [] ["a"] 0 (.panicked (selectPanicMsg 2 3)) rfl rfl rfl

/-! ### Claim C8 -/

/-- A non-panicking team pick always advances the draw position by one. -/
theorem selectTeamMembers_pos (prctx : PullContext) (allTeams : List String) (r : RandSrc)
    (pos : Nat) (tm : Except String (List String)) (pos' : Nat)
    (h : selectTeamMembers prctx allTeams r pos = .ok (tm, pos')) : pos' = pos + 1 := by
  unfold selectTeamMembers at h
  dsimp only at h
  cases hs : (allTeams.getD (Intn r pos allTeams.length) "").splitOn "/" with
  | nil =>
    rw [hs] at h
    cases h
  | cons t0 ts =>
    cases ts with
    | nil =>
      rw [hs] at h
      cases h
    | cons t1 ts2 =>
      rw [hs] at h
      dsimp only at h
      cases hlt : prctx.ListTeamMembers t0 t1 with
      | error te =>
        rw [hlt] at h
        dsimp only at h
        injection h with h'
        exact (congrArg Prod.snd h').symm
      | ok members =>
        rw [hlt] at h
        dsimp only at h
        injection h with h'
        exact (congrArg Prod.snd h').symm

/-- The organization step only ever appends its own contribution to the
pool it is given. -/
theorem orgPhase_union (prctx : PullContext) (child : Result) (r : RandSrc)
    (base : List String) (pos : Nat) (u : String) :
    u ∈ (orgPhase prctx child r base pos).1 ↔
      u ∈ base ∨ u ∈ orgStepMembers prctx child r pos := by
  unfold orgPhase orgStepMembers
  by_cases hO : child.ReviewRequestRule.Organizations.length > 0
  · rw [if_pos hO, if_pos hO]
    dsimp only
    cases prctx.ListOrganizationMembers (child.ReviewRequestRule.Organizations.getD
        (Intn r pos child.ReviewRequestRule.Organizations.length) "") with
    | error e => simp [mem_shoveIntoMap]
    | ok members => simp [mem_shoveIntoMap]
  · rw [if_neg hO, if_neg hO]
    simp

/-- The flag expansions only ever append their own contributions to the
pool they are given. -/
theorem expandFlags_union (child : Result) (perms : List (String × String))
    (base : List String) (u : String) :
    u ∈ expandFlags child perms base ↔
      u ∈ base ∨ u ∈ adminStepMembers child perms ∨ u ∈ writeStepMembers child perms := by
  unfold expandFlags adminStepMembers writeStepMembers
  by_cases hA : child.ReviewRequestRule.Admins <;>
    by_cases hW : child.ReviewRequestRule.WriteCollaborators <;>
      simp [hA, hW, mem_shoveIntoMap] <;> tauto

/-- The users, team and organization steps produce exactly the union of
the rule's users, the team contribution and the organization
contribution. -/
theorem poolPhase1_union (prctx : PullContext) (child : Result) (r : RandSrc) (pos : Nat)
    (u2 : List String) (p2 : Nat) (h : poolPhase1 prctx child r pos = .ok (u2, p2))
    (u : String) :
    u ∈ u2 ↔ u ∈ child.ReviewRequestRule.Users ∨
      u ∈ teamStepMembers prctx child r pos ∨
      u ∈ orgStepMembers prctx child r (teamStepPos child pos) := by
  unfold poolPhase1 at h
  unfold teamStepMembers teamStepPos
  by_cases hT : child.ReviewRequestRule.Teams.length > 0
  · rw [if_pos hT] at h
    rw [if_pos hT, if_pos hT]
    cases hstm : selectTeamMembers prctx child.ReviewRequestRule.Teams r pos with
    | error f =>
      rw [hstm] at h
      cases h
    | ok tp =>
      obtain ⟨tm, pos'⟩ := tp
      rw [hstm] at h
      have hp : pos' = pos + 1 :=
        selectTeamMembers_pos prctx child.ReviewRequestRule.Teams r pos tm pos' hstm
      cases tm with
      | error te =>
        dsimp only at h ⊢
        injection h with h'
        have h1 := congrArg Prod.fst h'
        dsimp only at h1
        rw [← h1, ← hp, orgPhase_union]
        simp [mem_shoveIntoMap]
      | ok members =>
        dsimp only at h ⊢
        injection h with h'
        have h1 := congrArg Prod.fst h'
        dsimp only at h1
        rw [← h1, ← hp, orgPhase_union]
        simp [mem_shoveIntoMap]
        tauto
  · rw [if_neg hT] at h
    rw [if_neg hT, if_neg hT]
    injection h with h'
    have h1 := congrArg Prod.fst h'
    dsimp only at h1
    rw [← h1, orgPhase_union]
    simp [mem_shoveIntoMap]

/-- C8: the candidate pool handed to filtering is the additive union of
all five sources — explicit users, resolved team members, resolved
organization members, and the two flag expansions: everything any source
contributes is in the pool, and nothing else is, so no later source
replaces or drops earlier members. -/
theorem buildPool_union (prctx : PullContext) (child : Result) (r : RandSrc) (pos : Nat)
    (pool : List String) (perms : List (String × String)) (p' : Nat)
    (h : buildPool prctx child r pos = .ok (pool, perms, p')) :
    PoolUnion prctx child r pos perms pool := by
  unfold buildPool at h
  cases h1 : poolPhase1 prctx child r pos with
  | error f =>
    rw [h1] at h
    cases h
  | ok up =>
    obtain ⟨u2, pos2⟩ := up
    rw [h1] at h
    cases hC : prctx.ListRepositoryCollaborators with
    | error e =>
      rw [hC] at h
      cases h
    | ok m =>
      rw [hC] at h
      simp only [Except.ok.injEq, Prod.mk.injEq] at h
      obtain ⟨hpool, hperms, _⟩ := h
      intro u
      rw [← hpool]
      subst hperms
      rw [expandFlags_union, poolPhase1_union prctx child r pos u2 pos2 h1 u]
      tauto

/-- C8 witness: at a rule naming three users with no other sources, the
built pool `["a", "b", "c"]` is exactly the union of the sources. -/
theorem buildPool_union_witness :
    PoolUnion exCtxAbc exLeafUsers3 exStreamIdx 0
      [("a", "admin"), ("b", "write"), ("c", "read")] ["a", "b", "c"] :=
  buildPool_union exCtxAbc exLeafUsers3 exStreamIdx 0 ["a", "b", "c"]
    [("a", "admin"), ("b", "write"), ("c", "read")] 0 rfl

/-! ### Claim C10 -/

/-- C10, counterexample to the claim as stated: with the tree, every
context answer and the randomness stream all identical, two runs that
enumerate the candidate-pool map in different orders — Go's runtime
randomizes `for u := range allUsers`, drawing on process-global state the
claim's inputs do not fix — return different reviewer sequences
(`["a"]` versus `["c"]`). -/
theorem FindRandomRequesters_iterOrder_cex :
    FindRandomRequesters id exCtxAbc exLeafUsers3One exStreamZero ≠
    FindRandomRequesters List.reverse exCtxAbc exLeafUsers3One exStreamZero := by
  have h1 : FindRandomRequesters id exCtxAbc exLeafUsers3One exStreamZero =
      .ok ["a"] := rfl
  have h2 : FindRandomRequesters List.reverse exCtxAbc exLeafUsers3One exStreamZero =
      .ok ["c"] := rfl
  rw [h1, h2]
  intro h
  injection h with h'
  exact absurd h' (by decide)

/-- C10 (amended): for a fixed map-iteration order the function is
deterministic in its inputs and consults nothing but them — two contexts
whose author and three listings answer every query identically yield
identical results for every tree and stream; no time-derived or other
ambient state enters.  (Only Go's randomized map-iteration order, modelled
by `iter`, escapes this determinism.) -/
theorem FindRandomRequesters_extensional (iter : List String → List String)
    (t : Result) (r : RandSrc) (c1 c2 : PullContext)
    (hA : c1.Author = c2.Author)
    (hT : ∀ o s, c1.ListTeamMembers o s = c2.ListTeamMembers o s)
    (hO : ∀ o, c1.ListOrganizationMembers o = c2.ListOrganizationMembers o)
    (hC : c1.ListRepositoryCollaborators = c2.ListRepositoryCollaborators) :
    FindRandomRequesters iter c1 t r = FindRandomRequesters iter c2 t r := by
  obtain ⟨a1, f1, g1, m1⟩ := c1
  obtain ⟨a2, f2, g2, m2⟩ := c2
  dsimp only at hA hT hO hC
  subst hA
  subst hC
  have hf : f1 = f2 := funext fun o => funext fun s => hT o s
  have hg : g1 = g2 := funext fun o => hO o
  subst hf
  subst hg
  rfl

/-- C10 witness: two syntactically different but pointwise-equal contexts
give the same run. -/
theorem FindRandomRequesters_extensional_witness :
    FindRandomRequesters id exCtxAbc exLeafUsers3One exStreamZero =
    FindRandomRequesters id exCtxAbc2 exLeafUsers3One exStreamZero :=
  FindRandomRequesters_extensional id exLeafUsers3One exStreamZero exCtxAbc exCtxAbc2
    rfl (fun _ _ => rfl) (fun _ => rfl) rfl

end Reviewer
